import Mathlib

/-!
Shallow embedding of the risk-register pipeline in `src/main.py`:
asset-directory loading (`load_assets`), GVM-report extraction
(`parse_gvm_xml`), severity classification (`cvss_to_likelihood`) and
register building (`build_risk_register`), together with proofs of the
specification claims about them.

Python strings are modelled as Lean `String`; Python `None` as `Option`;
`dict` as an association list with overwrite-on-insert; exceptions that
escape a function as an `Option`-valued result (`none` = the exception
propagates).
-/

/-! ### Python string primitives -/

/-- Whitespace characters stripped by Python `str.strip()` (ASCII portion). -/
def isPySpace (c : Char) : Bool :=
  c = ' ' || c = '\t' || c = '\n' || c = '\r' || c = '\x0b' || c = '\x0c'

/-- Strip leading and trailing whitespace from a character list. -/
def stripChars (cs : List Char) : List Char :=
  ((cs.dropWhile isPySpace).reverse.dropWhile isPySpace).reverse

/-- Python `s.strip()`. -/
def pyStrip (s : String) : String :=
  String.mk (stripChars s.data)

/-- Python truthiness of an optional string (`None` and `""` are falsy). -/
def truthyO : Option String → Bool
| none => false
| some s => !(s = "")

/-- Python `a or b` where both operands are `None`-or-string. -/
def pyOrO (a b : Option String) : Option String :=
  if truthyO a then a else b

/-- Python `a or b` where the right operand is a plain string
(the form used for the literal defaults in `parse_gvm_xml`). -/
def pyOrS (a : Option String) (b : String) : String :=
  if truthyO a then a.getD "" else b

/-! ### Python numeric parsing (`int()` and `float()` on strings)

Modelled from the CPython builtins as exact decimal parsers: `int` as an
optional sign followed by decimal digits, `float` as an optional sign,
decimal mantissa and optional exponent, the value taken as an exact
rational.  Exotic accepted forms (`inf`, `nan`, digit-group underscores)
are modelled as parse failures; no claim exercises them. -/

/-- Value of a nonempty all-digit character list; `none` otherwise. -/
def digitsToNat : List Char → Option Nat
| [] => none
| cs => if cs.all Char.isDigit then some (cs.foldl (fun a c => a * 10 + c.toNat - 48) 0) else none

/-- Split an optional leading sign; `true` means negative. -/
def splitSign : List Char → Bool × List Char
| '-' :: cs => (true, cs)
| '+' :: cs => (false, cs)
| cs => (false, cs)

/-- Python `int(s)` on an already-stripped string. -/
def pyInt (s : String) : Option Int :=
  match splitSign s.data with
  | (neg, cs) => (digitsToNat cs).map (fun n => if neg then -(n : Int) else (n : Int))

/-- An exact finite decimal value `(if neg then -1 else 1) * mant * 10 ^ exp10`,
the result of parsing a Python float literal. -/
structure PFloat where
  neg : Bool
  mant : Nat
  exp10 : Int
deriving DecidableEq

/-- The signed integer mantissa. -/
def PFloat.inum (f : PFloat) : Int :=
  if f.neg then -(f.mant : Int) else (f.mant : Int)

/-- The rational value of a parsed float. -/
def PFloat.toRat (f : PFloat) : ℚ :=
  (f.inum : ℚ) * (10 : ℚ) ^ f.exp10

/-- Decide `(t : ℚ) ≤ f.toRat` by cross-multiplying with the power of ten. -/
def PFloat.geInt (f : PFloat) (t : Int) : Bool :=
  if 0 ≤ f.exp10 then t ≤ f.inum * 10 ^ f.exp10.toNat
  else t * 10 ^ (-f.exp10).toNat ≤ f.inum

/-- Decide `(t : ℚ) < f.toRat` by cross-multiplying with the power of ten. -/
def PFloat.gtInt (f : PFloat) (t : Int) : Bool :=
  if 0 ≤ f.exp10 then t < f.inum * 10 ^ f.exp10.toNat
  else t * 10 ^ (-f.exp10).toNat < f.inum

/-- Parse an unsigned decimal mantissa (`digits`, `digits.digits`,
`digits.` or `.digits`), returning the digit value, the count of
fractional digits and the unconsumed rest. -/
def parseMantissa (cs : List Char) : Option (Nat × Nat × List Char) :=
  let ip := cs.takeWhile Char.isDigit
  let cs1 := cs.dropWhile Char.isDigit
  match cs1 with
  | '.' :: rest =>
    let fp := rest.takeWhile Char.isDigit
    let cs2 := rest.dropWhile Char.isDigit
    if ip.isEmpty && fp.isEmpty then none
    else some ((ip ++ fp).foldl (fun a c => a * 10 + (c.toNat - 48)) 0, fp.length, cs2)
  | _ =>
    if ip.isEmpty then none
    else some (ip.foldl (fun a c => a * 10 + (c.toNat - 48)) 0, 0, cs1)

/-- Parse the optional exponent part, which must consume the whole rest. -/
def parseExpPart : List Char → Option Int
| [] => some 0
| c :: rest =>
  if c = 'e' || c = 'E' then
    match splitSign rest with
    | (neg, rest1) =>
      match digitsToNat (rest1.takeWhile Char.isDigit) with
      | none => none
      | some n =>
        if (rest1.dropWhile Char.isDigit).isEmpty then
          some (if neg then -(n : Int) else (n : Int))
        else none
  else none

/-- Python `float(s)` on a finite decimal literal, as an exact decimal. -/
def pyFloat (s : String) : Option PFloat :=
  match splitSign (pyStrip s).data with
  | (neg, cs) =>
    match parseMantissa cs with
    | none => none
    | some (m, fl, rest) =>
      match parseExpPart rest with
      | none => none
      | some e => some ⟨neg, m, e - (fl : Int)⟩

/-! ### Severity classifier (`cvss_to_likelihood`, src/main.py lines 40-52) -/

/-- Function `cvss_to_likelihood` from src/main.py: parse the CVSS string
as a float (parse failure yields 1) and classify by fixed thresholds. -/
def cvss_to_likelihood (cvss : String) : Int :=
  match pyFloat cvss with
  | none => 1
  | some cv =>
    if cv.geInt 7 then 5
    else if cv.geInt 4 then 3
    else if cv.gtInt 0 then 1
    else 1

/-! ### Asset directory loader (`load_assets`, src/main.py lines 21-38)

A CSV row from `csv.DictReader` is modelled as an association list from
column name to cell text; `load_assets` is modelled on the row sequence
(file I/O is outside the embedding).  A `ValueError` escaping from
`int(...)` — the only statement in the loop that can raise, and not
caught by the `except FileNotFoundError` handler — is modelled as the
result `none`. -/

/-- Association-list lookup (first binding wins), modelling `dict` access. -/
def alookup {β : Type} (k : String) : List (String × β) → Option β
| [] => none
| (k1, v) :: rest => if k1 = k then some v else alookup k rest

/-- A CSV row: column name to cell text. -/
abbrev Row : Type := List (String × String)

/-- Python `row.get(key, default)`. -/
def rowGet (r : Row) (k d : String) : String :=
  match alookup k r with
  | some v => v
  | none => d

/-- An entry of the asset mapping built by `load_assets`. -/
structure AssetRecord where
  asset_name : String
  asset_owner : String
  criticality : Int
deriving DecidableEq

/-- The stripped `ip_address` field of a row. -/
def ipOf (r : Row) : String :=
  pyStrip (rowGet r "ip_address" "")

/-- The expression `int(row.get("asset_criticality", "1").strip() or 1)`;
here `none` models the `ValueError` raised on a non-numeric non-blank field. -/
def critParse (r : Row) : Option Int :=
  let raw := pyStrip (rowGet r "asset_criticality" "1")
  if raw = "" then some 1 else pyInt raw

/-- The `AssetRecord` built from one row (`none` = `ValueError`). -/
def buildRecord (r : Row) : Option AssetRecord :=
  match critParse r with
  | none => none
  | some c => some ⟨pyStrip (rowGet r "asset_name" ""), pyStrip (rowGet r "asset_owner" ""), c⟩

/-- Assignment `assets[ip] = rec`: overwrite the binding in place, else append. -/
def insertA (k : String) (v : AssetRecord) : List (String × AssetRecord) → List (String × AssetRecord)
| [] => [(k, v)]
| (k1, v1) :: rest => if k1 = k then (k, v) :: rest else (k1, v1) :: insertA k v rest

/-- The loop of `load_assets` over the remaining rows, starting from the
mapping built so far. -/
def loadAssetsAux (m : List (String × AssetRecord)) : List Row → Option (List (String × AssetRecord))
| [] => some m
| r :: rs =>
  if ipOf r = "" then loadAssetsAux m rs
  else
    match buildRecord r with
    | none => none
    | some rec => loadAssetsAux (insertA (ipOf r) rec m) rs

/-- Function `load_assets` from src/main.py, on the sequence of CSV rows. -/
def load_assets (rows : List Row) : Option (List (String × AssetRecord)) :=
  loadAssetsAux [] rows

/-! ### Vulnerability report extractor (`parse_gvm_xml`, src/main.py lines 54-101)

An `xml.etree.ElementTree` element is a tag, an optional text and a list
of children.  `find`/`findall` with a `.//tag` path walk all descendants
in document order; `findtext` with a plain tag looks at direct children
and substitutes `""` for a found element whose text is `None`. -/

inductive XML where
| elem (tag : String) (text : Option String) (children : List XML)

/-- The element's tag. -/
def XML.tag : XML → String
| .elem t _ _ => t

/-- The element's text (`None` when absent). -/
def XML.text : XML → Option String
| .elem _ t _ => t

/-- The element's children. -/
def XML.children : XML → List XML
| .elem _ _ c => c

mutual

/-- All proper descendants of an element, in document order. -/
def subtreeList : XML → List XML
| .elem _ _ ch => preorderList ch

/-- The elements of a forest and their descendants, in document order. -/
def preorderList : List XML → List XML
| [] => []
| x :: xs => x :: subtreeList x ++ preorderList xs

end

/-- ElementTree `r.findall(".//" + t)`: all descendants with the given tag. -/
def findallDeep (r : XML) (t : String) : List XML :=
  (subtreeList r).filter (fun e => e.tag = t)

/-- ElementTree `r.find(".//" + t)`: the first descendant with the given tag. -/
def findDeep (r : XML) (t : String) : Option XML :=
  (subtreeList r).find? (fun e => e.tag = t)

/-- ElementTree `r.findtext(t)`: text of the first direct child with the
given tag, with `""` substituted when that element's text is `None`. -/
def findtextDirect (r : XML) (t : String) : Option String :=
  (r.children.find? (fun e => e.tag = t)).map (fun e => e.text.getD "")

/-- ElementTree `r.findtext(".//" + t)`: the same over all descendants. -/
def findtextDeep (r : XML) (t : String) : Option String :=
  ((subtreeList r).find? (fun e => e.tag = t)).map (fun e => e.text.getD "")

/-- The GVM report namespace prefix `{...}` as ElementTree renders it. -/
def nsPre : String := "\x7bhttp://www.greenbone.net/schema/report/2.0\x7d"

/-- One vulnerability observation extracted from a result unit. -/
structure Obs where
  host : String
  name : String
  cvss : String
  description : String
deriving DecidableEq

/-- The `name` chain of `parse_gvm_xml` before stripping. -/
def nameChain (r : XML) : String :=
  pyOrS (pyOrO (pyOrO (findtextDirect r (nsPre ++ "name")) (findtextDirect r "name"))
    (findtextDeep r "name")) "Unknown Vulnerability"

/-- The `host` chain of `parse_gvm_xml` before the `or ""` default. -/
def hostChain (r : XML) : Option String :=
  pyOrO (pyOrO (findtextDirect r (nsPre ++ "host")) (findtextDirect r "host"))
    (findtextDeep r "host")

/-- The first `cvss` stage: a deep `cvss_base` node (namespaced, then
plain), taking its stripped text when truthy. -/
def cvssStageA (r : XML) : Option String :=
  match findDeep r (nsPre ++ "cvss_base") with
  | some n => if truthyO n.text then some (pyStrip (n.text.getD "")) else none
  | none =>
    match findDeep r "cvss_base" with
    | some n => if truthyO n.text then some (pyStrip (n.text.getD "")) else none
    | none => none

/-- The second `cvss` stage: the namespaced deep `cvss` node. -/
def cvssStageB (r : XML) : Option String :=
  match findDeep r (nsPre ++ "cvss") with
  | some n => if truthyO n.text then some (pyStrip (n.text.getD "")) else none
  | none => none

/-- The full `cvss` computation of `parse_gvm_xml`, including the final
fallback chain and the closing `(cvss or "0.0").strip()`. -/
def cvssOf (r : XML) : String :=
  let c :=
    match findDeep r (nsPre ++ "cvss_base") with
    | some n => if truthyO n.text then some (pyStrip (n.text.getD "")) else cvssStageB r
    | none =>
      match findDeep r "cvss_base" with
      | some n => if truthyO n.text then some (pyStrip (n.text.getD "")) else cvssStageB r
      | none => cvssStageB r
  let c2 :=
    if truthyO c then c
    else some (pyOrS (pyOrO (findtextDeep r "cvss_base") (findtextDeep r "cvss")) "0.0")
  pyStrip (pyOrS c2 "0.0")

/-- The `description` chain of `parse_gvm_xml` before stripping. -/
def descChain (r : XML) : String :=
  pyOrS (pyOrO (findtextDirect r (nsPre ++ "description")) (findtextDirect r "description")) ""

/-- The observation built from one result unit. -/
def parseResultUnit (r : XML) : Obs :=
  { host := pyStrip ((hostChain r).getD "")
    name := pyStrip (nameChain r)
    cvss := cvssOf r
    description := pyStrip (descChain r) }

/-- The result units `parse_gvm_xml` selects: all namespaced `result`
descendants, else all plain `result` descendants. -/
def selectResults (root : XML) : List XML :=
  let results := findallDeep root (nsPre ++ "result")
  if results.isEmpty then findallDeep root "result" else results

/-- Function `parse_gvm_xml` from src/main.py, on the document root element. -/
def parse_gvm_xml (root : XML) : List Obs :=
  (selectResults root).map parseResultUnit

/-! ### Register builder (`build_risk_register`, src/main.py lines 103-125) -/

/-- A row of the risk register. -/
structure RiskEntry where
  asset_name : String
  ip_address : String
  vulnerability_name : String
  cvss_score : String
  impact : Int
  likelihood : Int
  risk_score : Int
  description : String
deriving DecidableEq

/-- The body of the loop of `build_risk_register`: `none` when the
observation is discarded (empty host or no matching asset). -/
def mkEntry (assets : List (String × AssetRecord)) (v : Obs) : Option RiskEntry :=
  if v.host = "" then none
  else
    match alookup v.host assets with
    | none => none
    | some a =>
      some { asset_name := a.asset_name
             ip_address := v.host
             vulnerability_name := v.name
             cvss_score := v.cvss
             impact := a.criticality
             likelihood := cvss_to_likelihood v.cvss
             risk_score := a.criticality * cvss_to_likelihood v.cvss
             description := v.description }

/-- Insert an entry into a list sorted by `risk_score` descending, after
every element with a strictly larger score and before the rest; with
`stableSortDesc` this realises Python's stable `list.sort(reverse=True)`. -/
def insertDesc (e : RiskEntry) : List RiskEntry → List RiskEntry
| [] => [e]
| x :: xs => if e.risk_score < x.risk_score then x :: insertDesc e xs else e :: x :: xs

/-- Stable sort by `risk_score` descending. -/
def stableSortDesc (l : List RiskEntry) : List RiskEntry :=
  l.foldr insertDesc []

/-- Function `build_risk_register` from src/main.py. -/
def build_risk_register (assets : List (String × AssetRecord)) (vulns : List Obs) : List RiskEntry :=
  stableSortDesc (vulns.filterMap (mkEntry assets))

/-! ### Helper lemmas: stripping -/

theorem dropWhile_self_idem {α : Type} (p : α → Bool) (l : List α) :
    List.dropWhile p (List.dropWhile p l) = List.dropWhile p l := by
  induction l with
  | nil => rfl
  | cons x xs ih =>
    by_cases h : p x
    · simp [List.dropWhile, h, ih]
    · simp [List.dropWhile, h]

theorem length_dropWhile_le_self {α : Type} (p : α → Bool) (l : List α) :
    (List.dropWhile p l).length ≤ l.length := by
  induction l with
  | nil => simp
  | cons x xs ih =>
    by_cases h : p x
    · simp only [List.dropWhile, h]
      exact Nat.le_succ_of_le ih
    · simp [List.dropWhile, h]

theorem dropWhile_eq_self_of_front {α : Type} (p : α → Bool) {l1 l2 : List α}
    (hp : l1 <+: l2) (h : List.dropWhile p l2 = l2) : List.dropWhile p l1 = l1 := by
  cases l1 with
  | nil => rfl
  | cons c t =>
    obtain ⟨rest, hrest⟩ := hp
    have hc : ¬ p c := by
      intro hpc
      rw [← hrest] at h
      simp only [List.cons_append, List.dropWhile, hpc, List.append_eq] at h
      have hlen := length_dropWhile_le_self p (t ++ rest)
      have hlen2 := congrArg List.length h
      simp only [List.length_cons] at hlen2
      omega
    simp [List.dropWhile, hc]

theorem dropWhile_trimBack_eq_self {α : Type} (p : α → Bool) (l : List α)
    (h : List.dropWhile p l = l) :
    List.dropWhile p ((l.reverse.dropWhile p).reverse) = (l.reverse.dropWhile p).reverse := by
  apply dropWhile_eq_self_of_front p _ h
  refine ⟨(l.reverse.takeWhile p).reverse, ?_⟩
  rw [← List.reverse_append, List.takeWhile_append_dropWhile, List.reverse_reverse]

theorem stripChars_idem (cs : List Char) :
    stripChars (stripChars cs) = stripChars cs := by
  have ha := dropWhile_self_idem isPySpace cs
  have h1 := dropWhile_trimBack_eq_self isPySpace (List.dropWhile isPySpace cs) ha
  unfold stripChars
  rw [h1, List.reverse_reverse, dropWhile_self_idem]

theorem pyStrip_idem (s : String) : pyStrip (pyStrip s) = pyStrip s := by
  unfold pyStrip
  rw [stripChars_idem]

/-! ### Helper lemmas: the stable descending sort -/

theorem mem_insertDesc (e a : RiskEntry) (l : List RiskEntry) :
    a ∈ insertDesc e l ↔ a = e ∨ a ∈ l := by
  induction l with
  | nil => simp [insertDesc]
  | cons x xs ih =>
    by_cases h : e.risk_score < x.risk_score
    · simp only [insertDesc, if_pos h, List.mem_cons, ih]
      tauto
    · simp only [insertDesc, if_neg h, List.mem_cons]

theorem mem_stableSortDesc (a : RiskEntry) (l : List RiskEntry) :
    a ∈ stableSortDesc l ↔ a ∈ l := by
  induction l with
  | nil => simp [stableSortDesc]
  | cons x xs ih =>
    simp only [stableSortDesc, List.foldr_cons] at *
    rw [mem_insertDesc, ih, List.mem_cons]

theorem pairwise_insertDesc (e : RiskEntry) (l : List RiskEntry)
    (h : List.Pairwise (fun a b => b.risk_score ≤ a.risk_score) l) :
    List.Pairwise (fun a b => b.risk_score ≤ a.risk_score) (insertDesc e l) := by
  induction l with
  | nil => simp [insertDesc]
  | cons x xs ih =>
    rw [List.pairwise_cons] at h
    obtain ⟨hx, hxs⟩ := h
    by_cases hlt : e.risk_score < x.risk_score
    · rw [insertDesc, if_pos hlt, List.pairwise_cons]
      constructor
      · intro b hb
        rcases (mem_insertDesc e b xs).mp hb with hbe | hbxs
        · rw [hbe]; omega
        · exact hx b hbxs
      · exact ih hxs
    · rw [insertDesc, if_neg hlt, List.pairwise_cons]
      constructor
      · intro b hb
        rcases List.mem_cons.mp hb with hbx | hbxs
        · rw [hbx]; omega
        · have := hx b hbxs; omega
      · rw [List.pairwise_cons]; exact ⟨hx, hxs⟩

theorem pairwise_stableSortDesc (l : List RiskEntry) :
    List.Pairwise (fun a b => b.risk_score ≤ a.risk_score) (stableSortDesc l) := by
  induction l with
  | nil => simp [stableSortDesc]
  | cons x xs ih =>
    rw [stableSortDesc, List.foldr_cons]
    exact pairwise_insertDesc x _ ih

theorem length_insertDesc (e : RiskEntry) (l : List RiskEntry) :
    (insertDesc e l).length = l.length + 1 := by
  induction l with
  | nil => rfl
  | cons x xs ih =>
    by_cases h : e.risk_score < x.risk_score
    · simp [insertDesc, if_pos h, ih]
    · simp [insertDesc, if_neg h]

theorem length_stableSortDesc (l : List RiskEntry) :
    (stableSortDesc l).length = l.length := by
  induction l with
  | nil => rfl
  | cons x xs ih =>
    simp only [stableSortDesc, List.foldr_cons] at *
    rw [length_insertDesc, ih]
    simp

theorem filter_insertDesc (e : RiskEntry) (l : List RiskEntry) (k : Int) :
    (insertDesc e l).filter (fun x => x.risk_score = k) =
      if e.risk_score = k then e :: l.filter (fun x => x.risk_score = k)
      else l.filter (fun x => x.risk_score = k) := by
  induction l with
  | nil =>
    rw [insertDesc]
    by_cases he : e.risk_score = k
    · simp [List.filter, he]
    · simp [List.filter, he]
  | cons x xs ih =>
    by_cases hlt : e.risk_score < x.risk_score
    · rw [insertDesc, if_pos hlt]
      by_cases hx : x.risk_score = k
      · by_cases he : e.risk_score = k
        · omega
        · simp only [List.filter_cons, decide_eq_true_eq, if_pos hx, ih, if_neg he]
      · simp only [List.filter_cons, decide_eq_true_eq, if_neg hx, ih]
    · rw [insertDesc, if_neg hlt]
      by_cases he : e.risk_score = k
      · simp only [List.filter_cons, decide_eq_true_eq, if_pos he]
      · simp only [List.filter_cons, decide_eq_true_eq, if_neg he]

theorem filter_stableSortDesc (l : List RiskEntry) (k : Int) :
    (stableSortDesc l).filter (fun x => x.risk_score = k) =
      l.filter (fun x => x.risk_score = k) := by
  induction l with
  | nil => rfl
  | cons x xs ih =>
    rw [stableSortDesc, List.foldr_cons]
    rw [show List.foldr insertDesc [] xs = stableSortDesc xs from rfl] at *
    rw [filter_insertDesc, List.filter_cons]
    by_cases hx : x.risk_score = k
    · simp [hx, ih]
    · simp [hx, ih]

/-! ### Helper lemmas: the decimal comparisons of `PFloat` -/

theorem geInt_iff (f : PFloat) (t : Int) : f.geInt t = true ↔ (t : ℚ) ≤ f.toRat := by
  rw [PFloat.geInt, PFloat.toRat]
  by_cases h : 0 ≤ f.exp10
  · rw [if_pos h]
    have he : f.exp10 = (f.exp10.toNat : Int) := (Int.toNat_of_nonneg h).symm
    rw [he, zpow_natCast]
    rw [decide_eq_true_eq]
    constructor
    · intro hle
      calc (t : ℚ) ≤ ((f.inum * 10 ^ f.exp10.toNat : Int) : ℚ) := by exact_mod_cast hle
        _ = (f.inum : ℚ) * (10 : ℚ) ^ f.exp10.toNat := by push_cast; ring
    · intro hle
      have : ((t : Int) : ℚ) ≤ ((f.inum * 10 ^ f.exp10.toNat : Int) : ℚ) := by
        calc ((t : Int) : ℚ) ≤ (f.inum : ℚ) * (10 : ℚ) ^ f.exp10.toNat := hle
          _ = ((f.inum * 10 ^ f.exp10.toNat : Int) : ℚ) := by push_cast; ring
      exact_mod_cast this
  · rw [if_neg h]
    have hm : (((-f.exp10).toNat : Int)) = -f.exp10 := Int.toNat_of_nonneg (by omega)
    have hz : (10 : ℚ) ^ f.exp10 = ((10 : ℚ) ^ (-f.exp10).toNat)⁻¹ := by
      rw [← zpow_natCast (10 : ℚ) (-f.exp10).toNat, hm, ← zpow_neg, neg_neg]
    have hpow : (0 : ℚ) < (10 : ℚ) ^ (-f.exp10).toNat := by positivity
    rw [hz, decide_eq_true_eq]
    rw [← div_eq_mul_inv, le_div_iff₀ hpow]
    constructor
    · intro hle
      calc (t : ℚ) * (10 : ℚ) ^ (-f.exp10).toNat
          = ((t * 10 ^ (-f.exp10).toNat : Int) : ℚ) := by push_cast; ring
        _ ≤ (f.inum : ℚ) := by exact_mod_cast hle
    · intro hle
      have : ((t * 10 ^ (-f.exp10).toNat : Int) : ℚ) ≤ ((f.inum : Int) : ℚ) := by
        calc ((t * 10 ^ (-f.exp10).toNat : Int) : ℚ)
            = (t : ℚ) * (10 : ℚ) ^ (-f.exp10).toNat := by push_cast; ring
          _ ≤ (f.inum : ℚ) := hle
      exact_mod_cast this

theorem gtInt_iff (f : PFloat) (t : Int) : f.gtInt t = true ↔ (t : ℚ) < f.toRat := by
  rw [PFloat.gtInt, PFloat.toRat]
  by_cases h : 0 ≤ f.exp10
  · rw [if_pos h]
    have he : f.exp10 = (f.exp10.toNat : Int) := (Int.toNat_of_nonneg h).symm
    rw [he, zpow_natCast, decide_eq_true_eq]
    constructor
    · intro hle
      calc (t : ℚ) < ((f.inum * 10 ^ f.exp10.toNat : Int) : ℚ) := by exact_mod_cast hle
        _ = (f.inum : ℚ) * (10 : ℚ) ^ f.exp10.toNat := by push_cast; ring
    · intro hle
      have : ((t : Int) : ℚ) < ((f.inum * 10 ^ f.exp10.toNat : Int) : ℚ) := by
        calc ((t : Int) : ℚ) < (f.inum : ℚ) * (10 : ℚ) ^ f.exp10.toNat := hle
          _ = ((f.inum * 10 ^ f.exp10.toNat : Int) : ℚ) := by push_cast; ring
      exact_mod_cast this
  · rw [if_neg h]
    have hm : (((-f.exp10).toNat : Int)) = -f.exp10 := Int.toNat_of_nonneg (by omega)
    have hz : (10 : ℚ) ^ f.exp10 = ((10 : ℚ) ^ (-f.exp10).toNat)⁻¹ := by
      rw [← zpow_natCast (10 : ℚ) (-f.exp10).toNat, hm, ← zpow_neg, neg_neg]
    have hpow : (0 : ℚ) < (10 : ℚ) ^ (-f.exp10).toNat := by positivity
    rw [hz, decide_eq_true_eq]
    rw [← div_eq_mul_inv, lt_div_iff₀ hpow]
    constructor
    · intro hle
      calc (t : ℚ) * (10 : ℚ) ^ (-f.exp10).toNat
          = ((t * 10 ^ (-f.exp10).toNat : Int) : ℚ) := by push_cast; ring
        _ < (f.inum : ℚ) := by exact_mod_cast hle
    · intro hle
      have : ((t * 10 ^ (-f.exp10).toNat : Int) : ℚ) < ((f.inum : Int) : ℚ) := by
        calc ((t * 10 ^ (-f.exp10).toNat : Int) : ℚ)
            = (t : ℚ) * (10 : ℚ) ^ (-f.exp10).toNat := by push_cast; ring
          _ < (f.inum : ℚ) := hle
      exact_mod_cast this

/-! ### Helper lemmas: the asset mapping -/

theorem alookup_insertA_self (k : String) (v : AssetRecord) (m : List (String × AssetRecord)) :
    alookup k (insertA k v m) = some v := by
  induction m with
  | nil => simp [insertA, alookup]
  | cons p rest ih =>
    obtain ⟨k1, v1⟩ := p
    by_cases h : k1 = k
    · simp [insertA, if_pos h, alookup]
    · simp [insertA, alookup, h, ih]

theorem alookup_insertA_ne (k k2 : String) (hne : k2 ≠ k) (v : AssetRecord)
    (m : List (String × AssetRecord)) :
    alookup k2 (insertA k v m) = alookup k2 m := by
  induction m with
  | nil =>
    simp only [insertA, alookup, ite_eq_right_iff]
    intro hk; exact absurd hk (fun h => hne h.symm)
  | cons p rest ih =>
    obtain ⟨k1, v1⟩ := p
    by_cases h : k1 = k
    · subst h
      have : ¬ (k1 = k2) := fun hh => hne hh.symm
      simp [insertA, alookup, this]
    · simp only [insertA, if_neg h, alookup, ih]

theorem getLast?_cons_of_ne_nil {α : Type} (a : α) {l : List α} (h : l ≠ []) :
    (a :: l).getLast? = l.getLast? := by
  cases l with
  | nil => exact absurd rfl h
  | cons b bs => exact List.getLast?_cons_cons

theorem loadAssetsAux_lookup (rows : List Row) :
    ∀ m m2, loadAssetsAux m rows = some m2 → ∀ ip, ip ≠ "" →
      alookup ip m2 =
        ((rows.filter (fun r => ipOf r = ip)).getLast?).elim (alookup ip m) buildRecord := by
  induction rows with
  | nil =>
    intro m m2 h ip _
    rw [loadAssetsAux] at h
    cases h
    rfl
  | cons r rs ih =>
    intro m m2 h ip hip
    rw [loadAssetsAux] at h
    by_cases hr : ipOf r = ""
    · rw [if_pos hr] at h
      have hne : ¬ (ipOf r = ip) := by rw [hr]; exact fun hh => hip hh.symm
      rw [List.filter_cons, if_neg (by simp [hne])]
      exact ih m m2 h ip hip
    · rw [if_neg hr] at h
      cases hb : buildRecord r with
      | none => rw [hb] at h; cases h
      | some rec =>
        rw [hb] at h
        have hrec := ih _ m2 h ip hip
        by_cases hip2 : ipOf r = ip
        · rw [List.filter_cons, if_pos (by simp [hip2])]
          cases hfe : (rs.filter (fun x => ipOf x = ip)).getLast? with
          | some r2 =>
            have hnn : rs.filter (fun x => ipOf x = ip) ≠ [] := by
              intro hnil; rw [hnil] at hfe; cases hfe
            rw [getLast?_cons_of_ne_nil r hnn, hfe]
            rw [hfe] at hrec
            exact hrec
          | none =>
            have hnil : rs.filter (fun x => ipOf x = ip) = [] :=
              List.getLast?_eq_none_iff.mp hfe
            rw [hnil]
            rw [hfe] at hrec
            simp only [Option.elim] at hrec
            show alookup ip m2 = buildRecord r
            rw [hb, hrec, ← hip2]
            exact alookup_insertA_self (ipOf r) rec m
        · rw [List.filter_cons, if_neg (by simp [hip2])]
          have hne2 : ip ≠ ipOf r := fun hh => hip2 hh.symm
          rw [alookup_insertA_ne (ipOf r) ip hne2 rec m] at hrec
          exact hrec

theorem loadAssetsAux_none (rows : List Row) :
    ∀ m r, r ∈ rows → ipOf r ≠ "" → buildRecord r = none → loadAssetsAux m rows = none := by
  induction rows with
  | nil => intro m r h; cases h
  | cons r0 rs ih =>
    intro m r hmem hip hbad
    rw [loadAssetsAux]
    rcases List.mem_cons.mp hmem with heq | hmem2
    · subst heq
      rw [if_neg hip, hbad]
    · by_cases hr0 : ipOf r0 = ""
      · rw [if_pos hr0]
        exact ih m r hmem2 hip hbad
      · rw [if_neg hr0]
        cases hb : buildRecord r0 with
        | none => rfl
        | some rec => exact ih _ r hmem2 hip hbad

theorem loadAssetsAux_isSome (rows : List Row) :
    ∀ m, (∀ r, r ∈ rows → ipOf r ≠ "" → (buildRecord r).isSome) →
      (loadAssetsAux m rows).isSome := by
  induction rows with
  | nil => intro m _; rw [loadAssetsAux]; rfl
  | cons r0 rs ih =>
    intro m hall
    rw [loadAssetsAux]
    by_cases hr0 : ipOf r0 = ""
    · rw [if_pos hr0]
      exact ih m (fun r hr => hall r (List.mem_cons_of_mem r0 hr))
    · rw [if_neg hr0]
      have := hall r0 (List.mem_cons_self r0 rs) hr0
      cases hb : buildRecord r0 with
      | none => rw [hb] at this; cases this
      | some rec => exact ih _ (fun r hr => hall r (List.mem_cons_of_mem r0 hr))

theorem keys_insertA (k : String) (v : AssetRecord) (m : List (String × AssetRecord)) :
    (insertA k v m).map Prod.fst =
      if k ∈ m.map Prod.fst then m.map Prod.fst else m.map Prod.fst ++ [k] := by
  induction m with
  | nil => simp [insertA]
  | cons p rest ih =>
    obtain ⟨k1, v1⟩ := p
    by_cases h : k1 = k
    · subst h
      simp [insertA]
    · have : ¬ (k = k1) := fun hh => h hh.symm
      simp only [insertA, if_neg h, List.map_cons, List.mem_cons, ih]
      by_cases hk : k ∈ rest.map Prod.fst
      · simp [hk, this]
      · simp [hk, this]

theorem nodup_insertA (k : String) (v : AssetRecord) (m : List (String × AssetRecord))
    (h : (m.map Prod.fst).Nodup) : ((insertA k v m).map Prod.fst).Nodup := by
  rw [keys_insertA]
  by_cases hk : k ∈ m.map Prod.fst
  · rw [if_pos hk]; exact h
  · rw [if_neg hk]
    rw [List.nodup_append]
    exact ⟨h, List.nodup_singleton k, by simpa using hk⟩

theorem loadAssetsAux_nodup (rows : List Row) :
    ∀ m m2, loadAssetsAux m rows = some m2 → (m.map Prod.fst).Nodup →
      (m2.map Prod.fst).Nodup := by
  induction rows with
  | nil => intro m m2 h hn; rw [loadAssetsAux] at h; cases h; exact hn
  | cons r0 rs ih =>
    intro m m2 h hn
    rw [loadAssetsAux] at h
    by_cases hr0 : ipOf r0 = ""
    · rw [if_pos hr0] at h; exact ih m m2 h hn
    · rw [if_neg hr0] at h
      cases hb : buildRecord r0 with
      | none => rw [hb] at h; cases h
      | some rec =>
        rw [hb] at h
        exact ih _ m2 h (nodup_insertA _ rec m hn)

theorem alookup_eq_none_iff {β : Type} (k : String) (m : List (String × β)) :
    alookup k m = none ↔ k ∉ m.map Prod.fst := by
  induction m with
  | nil => simp [alookup]
  | cons p rest ih =>
    obtain ⟨k1, v1⟩ := p
    by_cases h : k1 = k
    · subst h
      simp [alookup]
    · have : ¬ (k = k1) := fun hh => h hh.symm
      simp [alookup, h, this, ih]

theorem mem_keys_insertA (k k2 : String) (v : AssetRecord) (m : List (String × AssetRecord)) :
    k2 ∈ (insertA k v m).map Prod.fst ↔ k2 = k ∨ k2 ∈ m.map Prod.fst := by
  rw [keys_insertA]
  by_cases hk : k ∈ m.map Prod.fst
  · rw [if_pos hk]
    constructor
    · exact fun h => Or.inr h
    · rintro (rfl | h)
      · exact hk
      · exact h
  · rw [if_neg hk, List.mem_append, List.mem_singleton]
    tauto

theorem loadAssetsAux_blank_not_mem (rows : List Row) :
    ∀ m m2, loadAssetsAux m rows = some m2 → "" ∉ m.map Prod.fst →
      "" ∉ m2.map Prod.fst := by
  induction rows with
  | nil => intro m m2 h hn; rw [loadAssetsAux] at h; cases h; exact hn
  | cons r0 rs ih =>
    intro m m2 h hn
    rw [loadAssetsAux] at h
    by_cases hr0 : ipOf r0 = ""
    · rw [if_pos hr0] at h; exact ih m m2 h hn
    · rw [if_neg hr0] at h
      cases hb : buildRecord r0 with
      | none => rw [hb] at h; cases h
      | some rec =>
        rw [hb] at h
        apply ih _ m2 h
        intro hmem
        rcases (mem_keys_insertA (ipOf r0) "" rec m).mp hmem with heq | hmem2
        · exact hr0 heq.symm
        · exact hn hmem2

/-! ### Helper lemmas: the extractor -/

theorem mem_preorderList_of_mem (x : XML) (xs : List XML) (h : x ∈ xs) :
    x ∈ preorderList xs := by
  induction xs with
  | nil => cases h
  | cons y ys ih =>
    rw [preorderList]
    rcases List.mem_cons.mp h with heq | hmem
    · rw [heq]; exact List.mem_cons_self _ _
    · exact List.mem_cons_of_mem _ (List.mem_append_right _ (ih hmem))

theorem mem_subtreeList_of_mem_children (r c : XML) (h : c ∈ r.children) :
    c ∈ subtreeList r := by
  cases r with
  | elem t x ch =>
    rw [subtreeList]
    exact mem_preorderList_of_mem c ch h

theorem findDeep_eq_none (r : XML) (t : String)
    (h : ∀ n, n ∈ subtreeList r → ¬ n.tag = t) : findDeep r t = none := by
  rw [findDeep, List.find?_eq_none]
  intro x hx
  simp only [decide_eq_true_eq]
  exact h x hx

theorem findtextDeep_eq_none (r : XML) (t : String)
    (h : ∀ n, n ∈ subtreeList r → ¬ n.tag = t) : findtextDeep r t = none := by
  rw [findtextDeep, Option.map_eq_none']
  rw [List.find?_eq_none]
  intro x hx
  simp only [decide_eq_true_eq]
  exact h x hx

theorem findtextDirect_eq_none (r : XML) (t : String)
    (h : ∀ n, n ∈ subtreeList r → ¬ n.tag = t) : findtextDirect r t = none := by
  rw [findtextDirect, Option.map_eq_none']
  rw [List.find?_eq_none]
  intro x hx
  simp only [decide_eq_true_eq]
  exact h x (mem_subtreeList_of_mem_children r x hx)

theorem parseResultUnit_default (r : XML)
    (h1 : findtextDirect r (nsPre ++ "name") = none)
    (h2 : findtextDirect r "name" = none)
    (h3 : findtextDeep r "name" = none)
    (h4 : findtextDirect r (nsPre ++ "host") = none)
    (h5 : findtextDirect r "host" = none)
    (h6 : findtextDeep r "host" = none)
    (h7 : findDeep r (nsPre ++ "cvss_base") = none)
    (h8 : findDeep r "cvss_base" = none)
    (h9 : findDeep r (nsPre ++ "cvss") = none)
    (h10 : findtextDeep r "cvss_base" = none)
    (h11 : findtextDeep r "cvss" = none)
    (h12 : findtextDirect r (nsPre ++ "description") = none)
    (h13 : findtextDirect r "description" = none) :
    parseResultUnit r = ⟨"", "Unknown Vulnerability", "0.0", ""⟩ := by
  rw [parseResultUnit, hostChain, nameChain, descChain, cvssOf, cvssStageB]
  rw [h1, h2, h3, h4, h5, h6, h7, h8, h9, h10, h11, h12, h13]
  decide

theorem pyStrip_cvssOf (r : XML) : pyStrip (cvssOf r) = cvssOf r := by
  exact pyStrip_idem _

/-! ### Helper lemmas: the register builder -/

theorem mkEntry_some (assets : List (String × AssetRecord)) (v : Obs) (e : RiskEntry)
    (h : mkEntry assets v = some e) :
    e.risk_score = e.impact * e.likelihood ∧
      ∃ a, alookup e.ip_address assets = some a ∧ e.impact = a.criticality := by
  rw [mkEntry] at h
  by_cases hh : v.host = ""
  · rw [if_pos hh] at h; cases h
  · rw [if_neg hh] at h
    cases ha : alookup v.host assets with
    | none => rw [ha] at h; cases h
    | some a =>
      rw [ha] at h
      cases h
      refine ⟨rfl, a, ?_, rfl⟩
      exact ha

theorem mkEntry_isSome (assets : List (String × AssetRecord)) (v : Obs) :
    (mkEntry assets v).isSome = (!(v.host == "") && (alookup v.host assets).isSome) := by
  rw [mkEntry]
  by_cases hh : v.host = ""
  · rw [if_pos hh]
    simp [hh]
  · rw [if_neg hh]
    cases ha : alookup v.host assets with
    | none => simp [hh, ha]
    | some a => simp [hh, ha]

theorem filterMap_mkEntry_length (assets : List (String × AssetRecord)) (vulns : List Obs) :
    (vulns.filterMap (mkEntry assets)).length =
      vulns.countP (fun v => !(v.host == "") && (alookup v.host assets).isSome) := by
  induction vulns with
  | nil => rfl
  | cons v vs ih =>
    rw [List.filterMap_cons, List.countP_cons]
    have hs := mkEntry_isSome assets v
    cases he : mkEntry assets v with
    | none =>
      rw [he] at hs
      rw [← hs]
      simp [ih]
    | some e =>
      rw [he] at hs
      rw [← hs]
      simp [ih]

/-! ### Helper lemmas: criticality values through the load -/

theorem mem_insertA (k : String) (v : AssetRecord) (m : List (String × AssetRecord))
    (p : String × AssetRecord) (h : p ∈ insertA k v m) : p = (k, v) ∨ p ∈ m := by
  induction m with
  | nil => simpa [insertA] using h
  | cons q rest ih =>
    obtain ⟨k1, v1⟩ := q
    by_cases hk : k1 = k
    · rw [insertA, if_pos hk] at h
      rcases List.mem_cons.mp h with heq | hmem
      · exact Or.inl heq
      · exact Or.inr (List.mem_cons_of_mem _ hmem)
    · rw [insertA, if_neg hk] at h
      rcases List.mem_cons.mp h with heq | hmem
      · exact Or.inr (by rw [heq]; exact List.mem_cons_self _ _)
      · rcases ih hmem with h1 | h2
        · exact Or.inl h1
        · exact Or.inr (List.mem_cons_of_mem _ h2)

theorem buildRecord_criticality (r : Row) (rec : AssetRecord)
    (h : buildRecord r = some rec) : critParse r = some rec.criticality := by
  rw [buildRecord] at h
  cases hc : critParse r with
  | none => rw [hc] at h; cases h
  | some c => rw [hc] at h; cases h; rfl

theorem loadAssetsAux_crit_ge (rows : List Row) :
    ∀ m m2, loadAssetsAux m rows = some m2 →
      (∀ p, p ∈ m → 1 ≤ p.2.criticality) →
      (∀ r, r ∈ rows → ∀ c, critParse r = some c → 1 ≤ c) →
      ∀ p, p ∈ m2 → 1 ≤ p.2.criticality := by
  induction rows with
  | nil =>
    intro m m2 h hm _
    rw [loadAssetsAux] at h
    cases h
    exact hm
  | cons r0 rs ih =>
    intro m m2 h hm hrows
    rw [loadAssetsAux] at h
    by_cases hr0 : ipOf r0 = ""
    · rw [if_pos hr0] at h
      exact ih m m2 h hm (fun r hr => hrows r (List.mem_cons_of_mem r0 hr))
    · rw [if_neg hr0] at h
      cases hb : buildRecord r0 with
      | none => rw [hb] at h; cases h
      | some rec =>
        rw [hb] at h
        apply ih _ m2 h _ (fun r hr => hrows r (List.mem_cons_of_mem r0 hr))
        intro p hp
        rcases mem_insertA (ipOf r0) rec m p hp with heq | hmem
        · rw [heq]
          exact hrows r0 (List.mem_cons_self r0 rs) rec.criticality
            (buildRecord_criticality r0 rec hb)
        · exact hm p hmem

/-! ### Claims -/

/-- C1: every risk entry emitted by `build_risk_register` has
`risk_score = impact * likelihood`, and `impact` is the criticality of
the asset found in the mapping under the observation's host address
(carried in the entry as `ip_address`). -/
theorem claim_c1 (assets : List (String × AssetRecord)) (vulns : List Obs) (e : RiskEntry)
    (he : e ∈ build_risk_register assets vulns) :
    e.risk_score = e.impact * e.likelihood ∧
      ∃ a, alookup e.ip_address assets = some a ∧ e.impact = a.criticality := by
  rw [build_risk_register, mem_stableSortDesc] at he
  obtain ⟨v, _, hmk⟩ := List.mem_filterMap.mp he
  exact mkEntry_some assets v e hmk

/-- Witness for C1 at a concrete register. -/
theorem claim_c1_witness :
    ∃ e, e ∈ build_risk_register [("10.0.0.5", ⟨"WebSrv1", "ops", 4⟩)]
        [⟨"10.0.0.5", "Outdated TLS", "7.5", "x"⟩] ∧
      (e.risk_score = e.impact * e.likelihood ∧
        ∃ a, alookup e.ip_address [("10.0.0.5", (⟨"WebSrv1", "ops", 4⟩ : AssetRecord))] = some a ∧
          e.impact = a.criticality) := by
  refine ⟨{ asset_name := "WebSrv1", ip_address := "10.0.0.5",
            vulnerability_name := "Outdated TLS", cvss_score := "7.5",
            impact := 4, likelihood := 5, risk_score := 20, description := "x" }, ?_, ?_⟩
  · decide
  · exact claim_c1 [("10.0.0.5", ⟨"WebSrv1", "ops", 4⟩)]
      [⟨"10.0.0.5", "Outdated TLS", "7.5", "x"⟩] _ (by decide)

/-- C2: the severity classifier always returns 1, 3 or 5; when the CVSS
string parses, the value classifies by the fixed thresholds 7.0 and 4.0
(values below 4.0, zero and negative included, give 1); when it does not
parse the result is 1; and the six concrete examples hold. -/
theorem claim_c2 :
    (∀ s, cvss_to_likelihood s = 1 ∨ cvss_to_likelihood s = 3 ∨ cvss_to_likelihood s = 5)
    ∧ (∀ s f, pyFloat s = some f →
        ((7 ≤ f.toRat → cvss_to_likelihood s = 5)
          ∧ (4 ≤ f.toRat → f.toRat < 7 → cvss_to_likelihood s = 3)
          ∧ (f.toRat < 4 → cvss_to_likelihood s = 1)))
    ∧ (∀ s, pyFloat s = none → cvss_to_likelihood s = 1)
    ∧ cvss_to_likelihood "7.0" = 5 ∧ cvss_to_likelihood "6.999" = 3
    ∧ cvss_to_likelihood "3.999" = 1 ∧ cvss_to_likelihood "0" = 1
    ∧ cvss_to_likelihood "-5" = 1 ∧ cvss_to_likelihood "not a number" = 1 := by
  refine ⟨?_, ?_, ?_, by decide, by decide, by decide, by decide, by decide, by decide⟩
  · intro s
    rw [cvss_to_likelihood]
    cases pyFloat s with
    | none => exact Or.inl rfl
    | some f =>
      show (if f.geInt 7 = true then (5 : Int)
            else if f.geInt 4 = true then 3
            else if f.gtInt 0 = true then 1 else 1) = 1 ∨ _ ∨ _
      cases hg7 : f.geInt 7 with
      | true => simp [hg7]
      | false =>
        cases hg4 : f.geInt 4 with
        | true => simp [hg7, hg4]
        | false =>
          cases hgt : f.gtInt 0 with
          | true => simp [hg7, hg4, hgt]
          | false => simp [hg7, hg4, hgt]
  · intro s f hf
    rw [cvss_to_likelihood, hf]
    refine ⟨?_, ?_, ?_⟩
    · intro h7
      have hg : f.geInt 7 = true := (geInt_iff f 7).mpr (by exact_mod_cast h7)
      show (if f.geInt 7 = true then (5 : Int)
            else if f.geInt 4 = true then 3
            else if f.gtInt 0 = true then 1 else 1) = 5
      rw [hg]
      simp
    · intro h4 h7
      have hg7 : f.geInt 7 = false := by
        rw [Bool.eq_false_iff]
        intro hc
        have := (geInt_iff f 7).mp hc
        have h7q : (7 : ℚ) ≤ f.toRat := by exact_mod_cast this
        linarith
      have hg4 : f.geInt 4 = true := (geInt_iff f 4).mpr (by exact_mod_cast h4)
      show (if f.geInt 7 = true then (5 : Int)
            else if f.geInt 4 = true then 3
            else if f.gtInt 0 = true then 1 else 1) = 3
      rw [hg7, hg4]
      simp
    · intro h4
      have hg7 : f.geInt 7 = false := by
        rw [Bool.eq_false_iff]
        intro hc
        have := (geInt_iff f 7).mp hc
        have h7q : (7 : ℚ) ≤ f.toRat := by exact_mod_cast this
        linarith
      have hg4 : f.geInt 4 = false := by
        rw [Bool.eq_false_iff]
        intro hc
        have := (geInt_iff f 4).mp hc
        have h4q : (4 : ℚ) ≤ f.toRat := by exact_mod_cast this
        linarith
      show (if f.geInt 7 = true then (5 : Int)
            else if f.geInt 4 = true then 3
            else if f.gtInt 0 = true then 1 else 1) = 1
      rw [hg7, hg4]
      cases hgt : f.gtInt 0 with
      | true => simp [hgt]
      | false => simp [hgt]
  · intro s h
    rw [cvss_to_likelihood, h]

/-- Witness for C2's conditional parts at concrete scores. -/
theorem claim_c2_witness :
    cvss_to_likelihood "8.1" = 5 ∧ cvss_to_likelihood "xx" = 1 := by
  constructor
  · exact ((claim_c2.2.1 "8.1" ⟨false, 81, -1⟩ (by decide)).1 (by norm_num [PFloat.toRat, PFloat.inum]))
  · exact (claim_c2.2.2.1 "xx" (by decide))

/-- C3: the register is sorted by `risk_score` descending, and the sort
is stable: for every score value, the entries carrying that score appear
in exactly the order the unsorted pass produced them from the
observation sequence. -/
theorem claim_c3 (assets : List (String × AssetRecord)) (vulns : List Obs) :
    List.Pairwise (fun a b => b.risk_score ≤ a.risk_score) (build_risk_register assets vulns)
    ∧ ∀ k, (build_risk_register assets vulns).filter (fun e => e.risk_score = k) =
        (vulns.filterMap (mkEntry assets)).filter (fun e => e.risk_score = k) :=
  ⟨pairwise_stableSortDesc _, fun k => filter_stableSortDesc _ k⟩

/-- C4: the register has exactly one entry per observation with a
non-empty host found in the asset mapping; observations with an empty or
unmatched host produce no entry; `build_risk_register` is total. -/
theorem claim_c4 (assets : List (String × AssetRecord)) (vulns : List Obs) :
    (build_risk_register assets vulns).length =
      vulns.countP (fun v => !(v.host == "") && (alookup v.host assets).isSome)
    ∧ (∀ v, v.host ≠ "" → (alookup v.host assets).isSome → (mkEntry assets v).isSome)
    ∧ (∀ v, v.host = "" ∨ alookup v.host assets = none → mkEntry assets v = none) := by
  refine ⟨?_, ?_, ?_⟩
  · rw [build_risk_register, length_stableSortDesc, filterMap_mkEntry_length]
  · intro v hne hsome
    rw [mkEntry_isSome, hsome]
    simp [hne]
  · intro v hv
    rw [mkEntry]
    rcases hv with he | hn
    · rw [if_pos he]
    · by_cases he : v.host = ""
      · rw [if_pos he]
      · rw [if_neg he, hn]

/-- Witness for C4 at a concrete register. -/
theorem claim_c4_witness :
    (build_risk_register [("10.0.0.5", ⟨"W", "o", 2⟩)]
        [⟨"10.0.0.5", "A", "5.0", ""⟩, ⟨"", "B", "5.0", ""⟩, ⟨"10.0.0.9", "C", "5.0", ""⟩]).length =
      List.countP (fun (v : Obs) => !(v.host == "") && (alookup v.host [("10.0.0.5", (⟨"W", "o", 2⟩ : AssetRecord))]).isSome)
        [⟨"10.0.0.5", "A", "5.0", ""⟩, ⟨"", "B", "5.0", ""⟩, ⟨"10.0.0.9", "C", "5.0", ""⟩]
    ∧ mkEntry [("10.0.0.5", ⟨"W", "o", 2⟩)] ⟨"", "B", "5.0", ""⟩ = none :=
  ⟨(claim_c4 [("10.0.0.5", ⟨"W", "o", 2⟩)]
      [⟨"10.0.0.5", "A", "5.0", ""⟩, ⟨"", "B", "5.0", ""⟩, ⟨"10.0.0.9", "C", "5.0", ""⟩]).1,
   (claim_c4 [("10.0.0.5", ⟨"W", "o", 2⟩)] []).2.2 ⟨"", "B", "5.0", ""⟩ (Or.inl rfl)⟩

/-- C5: a criticality field that is present, non-blank and not an
integer makes the whole load fail (the `ValueError` propagates), while a
missing or blank criticality field parses to the default 1 and the row's
record is built without error. -/
theorem claim_c5 :
    (∀ (rows : List Row) (r : Row), r ∈ rows → ipOf r ≠ "" → critParse r = none →
      load_assets rows = none)
    ∧ (∀ r : Row,
        (alookup "asset_criticality" r = none ∨
          ∃ s, alookup "asset_criticality" r = some s ∧ pyStrip s = "") →
        critParse r = some 1 ∧ (buildRecord r).isSome) := by
  constructor
  · intro rows r hmem hip hbad
    rw [load_assets]
    apply loadAssetsAux_none rows [] r hmem hip
    rw [buildRecord, hbad]
  · intro r h
    have hc : critParse r = some 1 := by
      rcases h with hnone | ⟨s, hs, hblank⟩
      · simp only [critParse, rowGet, hnone]
        decide
      · simp only [critParse, rowGet, hs, hblank]
        decide
    refine ⟨hc, ?_⟩
    rw [buildRecord, hc]
    rfl

/-- Witness for C5: a non-numeric criticality aborts the load; a blank
one defaults to 1. -/
theorem claim_c5_witness :
    load_assets [[("ip_address", "10.0.0.7"), ("asset_criticality", "abc")]] = none
    ∧ critParse [("asset_criticality", "  ")] = some 1 :=
  ⟨claim_c5.1 [[("ip_address", "10.0.0.7"), ("asset_criticality", "abc")]]
      [("ip_address", "10.0.0.7"), ("asset_criticality", "abc")]
      (by decide) (by decide) (by decide),
   (claim_c5.2 [("asset_criticality", "  ")]
      (Or.inr ⟨"  ", by decide, by decide⟩)).1⟩

/-- C6: when the load succeeds, the asset mapping binds each key at most
once, never binds the empty address (blank-address rows are skipped),
and binds each non-blank address to the record built from the last row
carrying that address; moreover rows with a blank address can never make
the load fail. -/
theorem claim_c6 :
    (∀ rows : List Row, (∀ r, r ∈ rows → ipOf r ≠ "" → (buildRecord r).isSome) →
      (load_assets rows).isSome)
    ∧ (∀ (rows : List Row) m2, load_assets rows = some m2 →
        (m2.map Prod.fst).Nodup
        ∧ alookup "" m2 = none
        ∧ ∀ ip, ip ≠ "" →
            alookup ip m2 =
              ((rows.filter (fun r => ipOf r = ip)).getLast?).elim none buildRecord) := by
  constructor
  · intro rows h
    exact loadAssetsAux_isSome rows [] h
  · intro rows m2 h
    refine ⟨loadAssetsAux_nodup rows [] m2 h (by simp), ?_, ?_⟩
    · rw [alookup_eq_none_iff]
      exact loadAssetsAux_blank_not_mem rows [] m2 h (by simp)
    · intro ip hip
      exact loadAssetsAux_lookup rows [] m2 h ip hip

/-- Witness for C6: two rows sharing an address; the later row wins. -/
theorem claim_c6_witness :
    alookup "10.0.0.5" [("10.0.0.5", (⟨"b", "", 3⟩ : AssetRecord))] =
      (([[("ip_address", "10.0.0.5"), ("asset_name", "a"), ("asset_criticality", "2")],
         [("ip_address", "10.0.0.5"), ("asset_name", "b"), ("asset_criticality", "3")]].filter
          (fun r => ipOf r = "10.0.0.5")).getLast?).elim none buildRecord :=
  (claim_c6.2
    [[("ip_address", "10.0.0.5"), ("asset_name", "a"), ("asset_criticality", "2")],
     [("ip_address", "10.0.0.5"), ("asset_name", "b"), ("asset_criticality", "3")]]
    [("10.0.0.5", ⟨"b", "", 3⟩)] (by decide)).2.2 "10.0.0.5" (by decide)

theorem alookup_mem {β : Type} (k : String) (m : List (String × β)) (v : β)
    (h : alookup k m = some v) : (k, v) ∈ m := by
  induction m with
  | nil => cases h
  | cons p rest ih =>
    obtain ⟨k1, v1⟩ := p
    rw [alookup] at h
    by_cases hk : k1 = k
    · rw [if_pos hk] at h
      cases h
      rw [hk]
      exact List.mem_cons_self _ _
    · rw [if_neg hk] at h
      exact List.mem_cons_of_mem _ (ih h)

/-- C9 fails on the code: `load_assets` accepts a criticality of `0`
(or any negative integer) and stores it unchanged, so a stored record
can have criticality below 1. -/
theorem claim_c9_counterexample :
    ¬ (∀ (rows : List Row) (m2 : List (String × AssetRecord)) (k : String) (rec : AssetRecord),
        load_assets rows = some m2 → alookup k m2 = some rec → 1 ≤ rec.criticality) := by
  intro h
  have := h [[("ip_address", "10.0.0.1"), ("asset_criticality", "0")]]
    [("10.0.0.1", ⟨"", "", 0⟩)] "10.0.0.1" ⟨"", "", 0⟩ (by decide) (by decide)
  exact absurd this (by decide)

/-- C9 amended: every stored record's criticality is an integer, equal
to what the row's criticality field parsed to (1 when missing or
blank); it is ≥ 1 for all stored records provided every loaded row's
parsed criticality is ≥ 1 — the loader itself does not enforce the
lower bound. -/
theorem claim_c9_amended (rows : List Row) (m2 : List (String × AssetRecord))
    (h : load_assets rows = some m2)
    (hcrit : ∀ r, r ∈ rows → 1 ≤ (critParse r).getD 1) :
    ∀ (k : String) (rec : AssetRecord), alookup k m2 = some rec → 1 ≤ rec.criticality := by
  intro k rec hl
  have hmem : (k, rec) ∈ m2 := alookup_mem k m2 rec hl
  refine loadAssetsAux_crit_ge rows [] m2 h (by simp) ?_ (k, rec) hmem
  intro r hr c hc
  have := hcrit r hr
  rw [hc] at this
  exact this

/-- Witness for C9's amended claim at a concrete load. -/
theorem claim_c9_amended_witness :
    1 ≤ (AssetRecord.criticality ⟨"", "", 3⟩) :=
  claim_c9_amended [[("ip_address", "10.0.0.2"), ("asset_criticality", "3")]]
    [("10.0.0.2", ⟨"", "", 3⟩)] (by decide) (by decide) "10.0.0.2" ⟨"", "", 3⟩ (by decide)

/-- C10: a row whose `asset_name` key is missing builds its record with
an empty display name, a row whose `asset_owner` key is missing builds
its record with an empty owner — each missing key alone, with no
exception beyond the criticality parse — and whether a row is skipped
is decided by the `ip_address` field alone. -/
theorem claim_c10 (r : Row) :
    (alookup "asset_name" r = none → ∀ c, critParse r = some c →
      ∃ rec, buildRecord r = some rec ∧ rec.asset_name = "")
    ∧ (alookup "asset_owner" r = none → ∀ c, critParse r = some c →
      ∃ rec, buildRecord r = some rec ∧ rec.asset_owner = "")
    ∧ (∀ m (rs : List Row), ipOf r = "" → loadAssetsAux m (r :: rs) = loadAssetsAux m rs) := by
  refine ⟨?_, ?_, ?_⟩
  · intro hname c hc
    rw [buildRecord, hc]
    refine ⟨_, rfl, ?_⟩
    show pyStrip (rowGet r "asset_name" "") = ""
    simp only [rowGet, hname]
    rfl
  · intro howner c hc
    rw [buildRecord, hc]
    refine ⟨_, rfl, ?_⟩
    show pyStrip (rowGet r "asset_owner" "") = ""
    simp only [rowGet, howner]
    rfl
  · intro m rs hip
    rw [loadAssetsAux, if_pos hip]

/-- Witness for C10: a row missing only the name key, and a row missing
only the owner key. -/
theorem claim_c10_witness :
    (∃ rec, buildRecord [("ip_address", "1.1.1.1"), ("asset_owner", "bob"),
        ("asset_criticality", "2")] = some rec ∧ rec.asset_name = "")
    ∧ (∃ rec, buildRecord [("ip_address", "1.1.1.1"), ("asset_name", "web"),
        ("asset_criticality", "2")] = some rec ∧ rec.asset_owner = "") :=
  ⟨(claim_c10 [("ip_address", "1.1.1.1"), ("asset_owner", "bob"),
      ("asset_criticality", "2")]).1 (by decide) 2 (by decide),
   (claim_c10 [("ip_address", "1.1.1.1"), ("asset_name", "web"),
      ("asset_criticality", "2")]).2.1 (by decide) 2 (by decide)⟩

/-- C7: the extractor takes all namespaced `result` units found anywhere
under the document root; only when that search finds none does it take
the un-namespaced `result` units; one observation is produced per unit,
in document order, and zero units under both searches yield the empty
sequence (no error). -/
theorem claim_c7 (root : XML) :
    ((findallDeep root (nsPre ++ "result")).isEmpty = false →
      parse_gvm_xml root = (findallDeep root (nsPre ++ "result")).map parseResultUnit)
    ∧ ((findallDeep root (nsPre ++ "result")).isEmpty = true →
      parse_gvm_xml root = (findallDeep root "result").map parseResultUnit)
    ∧ ((findallDeep root (nsPre ++ "result")).isEmpty = true →
      (findallDeep root "result").isEmpty = true → parse_gvm_xml root = []) := by
  refine ⟨?_, ?_, ?_⟩
  · intro h
    rw [parse_gvm_xml, selectResults]
    simp only [h]
    rfl
  · intro h
    rw [parse_gvm_xml, selectResults]
    simp only [h]
    rfl
  · intro h h2
    rw [parse_gvm_xml, selectResults]
    simp only [h]
    rw [List.isEmpty_iff] at h2
    simp [h2]

/-- Witness for C7 at a document with only un-namespaced results. -/
theorem claim_c7_witness :
    parse_gvm_xml (.elem "report" none [.elem "result" none [], .elem "x" none []]) =
      (findallDeep (.elem "report" none [.elem "result" none [], .elem "x" none []])
        "result").map parseResultUnit :=
  (claim_c7 (.elem "report" none [.elem "result" none [], .elem "x" none []])).2.1 (by decide)

/-- C8: a result unit in which every lookup tier fails (no name, host,
cvss or description element anywhere below it) yields the documented
literal defaults, and every field the extractor stores is left fixed by
a further strip of surrounding whitespace. -/
theorem claim_c8 (r : XML) :
    ((∀ n, n ∈ subtreeList r →
        n.tag ∉ [nsPre ++ "name", "name", nsPre ++ "host", "host", nsPre ++ "cvss_base",
          "cvss_base", nsPre ++ "cvss", "cvss", nsPre ++ "description", "description"]) →
      parseResultUnit r = ⟨"", "Unknown Vulnerability", "0.0", ""⟩)
    ∧ pyStrip (parseResultUnit r).host = (parseResultUnit r).host
    ∧ pyStrip (parseResultUnit r).name = (parseResultUnit r).name
    ∧ pyStrip (parseResultUnit r).cvss = (parseResultUnit r).cvss
    ∧ pyStrip (parseResultUnit r).description = (parseResultUnit r).description := by
  refine ⟨?_, pyStrip_idem _, pyStrip_idem _, pyStrip_cvssOf r, pyStrip_idem _⟩
  intro h
  apply parseResultUnit_default
  · exact findtextDirect_eq_none r _ (fun n hn ht => h n hn (by rw [ht]; decide))
  · exact findtextDirect_eq_none r _ (fun n hn ht => h n hn (by rw [ht]; decide))
  · exact findtextDeep_eq_none r _ (fun n hn ht => h n hn (by rw [ht]; decide))
  · exact findtextDirect_eq_none r _ (fun n hn ht => h n hn (by rw [ht]; decide))
  · exact findtextDirect_eq_none r _ (fun n hn ht => h n hn (by rw [ht]; decide))
  · exact findtextDeep_eq_none r _ (fun n hn ht => h n hn (by rw [ht]; decide))
  · exact findDeep_eq_none r _ (fun n hn ht => h n hn (by rw [ht]; decide))
  · exact findDeep_eq_none r _ (fun n hn ht => h n hn (by rw [ht]; decide))
  · exact findDeep_eq_none r _ (fun n hn ht => h n hn (by rw [ht]; decide))
  · exact findtextDeep_eq_none r _ (fun n hn ht => h n hn (by rw [ht]; decide))
  · exact findtextDeep_eq_none r _ (fun n hn ht => h n hn (by rw [ht]; decide))
  · exact findtextDirect_eq_none r _ (fun n hn ht => h n hn (by rw [ht]; decide))
  · exact findtextDirect_eq_none r _ (fun n hn ht => h n hn (by rw [ht]; decide))

/-- Witness for C8 at a bare result unit with no sub-elements. -/
theorem claim_c8_witness :
    parseResultUnit (.elem "result" none []) = ⟨"", "Unknown Vulnerability", "0.0", ""⟩ :=
  (claim_c8 (.elem "result" none [])).1
    (by intro n hn; simp [subtreeList, preorderList] at hn)
